import Mathlib

/-!
Verification development for the Catalyst web wallet (catalyst-network/web_wallet).

The TypeScript sources are shallowly embedded: `Uint8Array` values become
`List Nat` with elements below 256, JS `number`/`bigint` become `Int` (with the
source's explicit range checks kept), thrown exceptions become `Except String`,
and the external cryptographic primitives that the sources import from
`@noble/...` are either implemented bit-exactly (BLAKE2b, RFC 7693) or
abstracted as function parameters where only their determinism matters
(scrypt, XChaCha20-Poly1305, Ristretto255 point operations).
-/

set_option linter.unusedVariables false
set_option maxRecDepth 1000000

deriving instance DecidableEq for Except

namespace Catalyst

/-- Byte strings: lists of naturals; genuine bytes are below 256. -/
abbrev Bytes := List Nat

/-- 64-bit wraparound addition. -/
def add64 (a b : Nat) : Nat := (a + b) % 18446744073709551616

/-- Right rotation of a 64-bit word by `n` bits (for `x < 2^64`, `0 < n < 64`). -/
def rotr64 (x n : Nat) : Nat := (x % 2 ^ n) * 2 ^ (64 - n) + x / 2 ^ n

/-- Little-endian byte list to natural number (the `leBytesToBigInt` helper of
`packages/catalyst-sdk/src/tx.ts`). -/
def leBytesToNat (bs : Bytes) : Nat := bs.foldr (fun b acc => acc * 256 + b) 0

/-- Natural number to `len` little-endian bytes (each reduced mod 256). -/
def natToLeBytes (n len : Nat) : Bytes :=
  (List.range len).map (fun i => n / 256 ^ i % 256)

/-- BLAKE2b initialization vector (RFC 7693). -/
def blake2bIV : List Nat :=
  [0x6a09e667f3bcc908, 0xbb67ae8584caa73b, 0x3c6ef372fe94f82b, 0xa54ff53a5f1d36f1,
   0x510e527fade682d1, 0x9b05688c2b3e6c1f, 0x1f83d9abfb41bd6b, 0x5be0cd19137e2179]

/-- BLAKE2b message schedule SIGMA (RFC 7693). -/
def blake2bSigma : List (List Nat) :=
  [[0, 1, 2, 3, 4, 5, 6, 7, 8, 9, 10, 11, 12, 13, 14, 15],
   [14, 10, 4, 8, 9, 15, 13, 6, 1, 12, 0, 2, 11, 7, 5, 3],
   [11, 8, 12, 0, 5, 2, 15, 13, 10, 14, 3, 6, 7, 1, 9, 4],
   [7, 9, 3, 1, 13, 12, 11, 14, 2, 6, 5, 10, 4, 0, 15, 8],
   [9, 0, 5, 7, 2, 4, 10, 15, 14, 1, 11, 12, 6, 8, 3, 13],
   [2, 12, 6, 10, 0, 11, 8, 3, 4, 13, 7, 5, 15, 14, 1, 9],
   [12, 5, 1, 15, 14, 13, 4, 10, 0, 7, 6, 3, 9, 2, 8, 11],
   [13, 11, 7, 14, 12, 1, 3, 9, 5, 0, 15, 4, 8, 6, 2, 10],
   [6, 15, 14, 9, 11, 3, 0, 8, 12, 2, 13, 7, 1, 4, 10, 5],
   [10, 2, 8, 4, 7, 6, 1, 5, 15, 11, 9, 14, 3, 12, 13, 0]]

/-- The BLAKE2b mixing function G acting on the 16-word work vector. -/
def blake2bG (v : List Nat) (a b c d x y : Nat) : List Nat :=
  let va := v.getD a 0
  let vb := v.getD b 0
  let vc := v.getD c 0
  let vd := v.getD d 0
  let va := add64 (add64 va vb) x
  let vd := rotr64 (vd ^^^ va) 32
  let vc := add64 vc vd
  let vb := rotr64 (vb ^^^ vc) 24
  let va := add64 (add64 va vb) y
  let vd := rotr64 (vd ^^^ va) 16
  let vc := add64 vc vd
  let vb := rotr64 (vb ^^^ vc) 63
  ((((v.set a va).set b vb).set c vc).set d vd)

/-- One round of the BLAKE2b compression: eight G applications with schedule row `s`. -/
def blake2bRound (m v s : List Nat) : List Nat :=
  let mi := fun i => m.getD (s.getD i 0) 0
  let v := blake2bG v 0 4 8 12 (mi 0) (mi 1)
  let v := blake2bG v 1 5 9 13 (mi 2) (mi 3)
  let v := blake2bG v 2 6 10 14 (mi 4) (mi 5)
  let v := blake2bG v 3 7 11 15 (mi 6) (mi 7)
  let v := blake2bG v 0 5 10 15 (mi 8) (mi 9)
  let v := blake2bG v 1 6 11 12 (mi 10) (mi 11)
  let v := blake2bG v 2 7 8 13 (mi 12) (mi 13)
  blake2bG v 3 4 9 14 (mi 14) (mi 15)

/-- Split a 128-byte block into its 16 little-endian 64-bit words. -/
def blake2bWordsOfBlock (block : Bytes) : List Nat :=
  (List.range 16).map (fun i => leBytesToNat ((block.drop (8 * i)).take 8))

/-- The BLAKE2b compression function F (RFC 7693): `t` is the byte-offset
counter, `last` marks the final block. -/
def blake2bCompress (h block : List Nat) (t : Nat) (last : Bool) : List Nat :=
  let m := blake2bWordsOfBlock block
  let v := h ++ blake2bIV
  let v := v.set 12 ((v.getD 12 0) ^^^ (t % 18446744073709551616))
  let v := v.set 13 ((v.getD 13 0) ^^^ (t / 18446744073709551616 % 18446744073709551616))
  let v := if last then v.set 14 ((v.getD 14 0) ^^^ 0xffffffffffffffff) else v
  let v := (List.range 12).foldl (fun v r => blake2bRound m v (blake2bSigma.getD (r % 10) [])) v
  (List.range 8).map (fun i => (h.getD i 0) ^^^ (v.getD i 0) ^^^ (v.getD (i + 8) 0))

/-- Pad a byte list with zeros up to 128 bytes. -/
def padTo128 (bs : Bytes) : Bytes := bs ++ List.replicate (128 - bs.length) 0

/-- Split a byte list into 128-byte chunks (fuel recursion so that the kernel
can reduce it; any `fuel ≥ bs.length / 128` gives the intended result). -/
def chunks128Go (fuel : Nat) (bs : Bytes) : List Bytes :=
  match fuel with
  | 0 => [bs]
  | fuel + 1 =>
    if bs.length ≤ 128 then [bs]
    else bs.take 128 :: chunks128Go fuel (bs.drop 128)

/-- Split a byte list into 128-byte chunks, the last possibly short. -/
def chunks128 (bs : Bytes) : List Bytes := chunks128Go bs.length bs

/-- Main block-processing loop of keyless BLAKE2b: `done` counts the bytes
already compressed before the current block. -/
def blake2bLoop (h : List Nat) (blocks : List Bytes) (done : Nat) : List Nat :=
  match blocks with
  | [] => h
  | [b] => blake2bCompress h (padTo128 b) (done + b.length) true
  | b :: rest => blake2bLoop (blake2bCompress h b (done + 128) false) rest (done + 128)

/-- Keyless BLAKE2b with digest length `nn` bytes (RFC 7693); this is the
`blake2b(data, { dkLen: nn })` call of `@noble/hashes` used by the sources. -/
def blake2b (msg : Bytes) (nn : Nat) : Bytes :=
  let h0 := blake2bIV.set 0 ((blake2bIV.getD 0 0) ^^^ (0x01010000 + nn))
  let h := blake2bLoop h0 (chunks128 msg) 0
  ((h.map (fun w => natToLeBytes w 8)).flatten).take nn

/-- BLAKE2b-512. -/
def blake2b512 (msg : Bytes) : Bytes := blake2b msg 64

/-- Value of a hex digit (either case), `none` for a non-hex character. -/
def hexCharVal (c : Char) : Option Nat :=
  if '0' ≤ c ∧ c ≤ '9' then some (c.toNat - 48)
  else if 'a' ≤ c ∧ c ≤ 'f' then some (c.toNat - 87)
  else if 'A' ≤ c ∧ c ≤ 'F' then some (c.toNat - 55)
  else none

/-- ASCII whitespace stripped by JS `parseInt` (the unicode spaces are left
out; no source string contains them). -/
def jsWhitespace (c : Char) : Bool :=
  c = ' ' ∨ c = '\t' ∨ c = '\n' ∨ c = '\r' ∨ c = '\x0b' ∨ c = '\x0c'

/-- Longest hex-digit prefix, as mandated by ECMA `parseInt`: `none` when no
leading digit exists, otherwise the value of the digits read — trailing
garbage is silently ignored. -/
def jsParseIntHexDigits (cs : List Char) : Option Nat :=
  let ds := cs.takeWhile (fun c => (hexCharVal c).isSome)
  if ds.isEmpty then none
  else some (ds.foldl (fun acc c => acc * 16 + ((hexCharVal c).getD 0)) 0)

/-- Strip a leading `0x`/`0X`, as ECMA `parseInt` does for radix 16. -/
def jsStrip0x : List Char → List Char
  | '0' :: 'x' :: t => t
  | '0' :: 'X' :: t => t
  | t => t

/-- JS `Number.parseInt(s, 16)` on the characters of `s`: `none` is `NaN`. -/
def jsParseIntHex (cs : List Char) : Option Int :=
  match cs.dropWhile jsWhitespace with
  | '-' :: t => (jsParseIntHexDigits (jsStrip0x t)).map (fun n => -(n : Int))
  | '+' :: t => (jsParseIntHexDigits (jsStrip0x t)).map (fun n => (n : Int))
  | t => (jsParseIntHexDigits (jsStrip0x t)).map (fun n => (n : Int))

/-- Split a character list into consecutive pairs (a leftover odd character is
dropped; callers check evenness first). -/
def chunkPairs : List Char → List (List Char)
  | c1 :: c2 :: rest => [c1, c2] :: chunkPairs rest
  | _ => []

/-- JS `Uint8Array` element store `out[i] = v`: ToUint8 wraps modulo 256 and
sends NaN to 0. -/
def jsToUint8 : Option Int → Nat
  | none => 0
  | some v => (v.emod 256).toNat

/-- The `hexToBytes` of `packages/catalyst-sdk/src/hex.ts`: drops the first two
characters (the `0x` the type ascription promises), requires even length, and
parses byte pairs with `Number.parseInt(_, 16)`, throwing only when the parse
result is not finite (NaN). -/
def hexToBytes (hex : String) : Except String Bytes :=
  let h := hex.data.drop 2
  if h.length % 2 ≠ 0 then .error "Invalid hex length"
  else
    let vals := (chunkPairs h).map jsParseIntHex
    if vals.any (fun v => v.isNone) then .error "Invalid hex"
    else .ok (vals.map jsToUint8)

/-- Lowercase hex digit character for `n < 16`. -/
def hexDigitChar (n : Nat) : Char := if n < 10 then Char.ofNat (48 + n) else Char.ofNat (87 + n)

/-- The two lowercase hex characters of a byte: JS
`b.toString(16).padStart(2, "0")` for `b < 256`. -/
def byteToHexChars (b : Nat) : List Char := [hexDigitChar (b / 16 % 16), hexDigitChar (b % 16)]

/-- The `bytesToHex` of `packages/catalyst-sdk/src/hex.ts` (the vault module
carries a byte-identical local copy). -/
def bytesToHex (bs : Bytes) : String := ⟨'0' :: 'x' :: bs.flatMap byteToHexChars⟩

/-- Lowercase-hex character predicate, the `[0-9a-f]` class of
`normalizeHex32`. -/
def isLowerHexChar (c : Char) : Bool := ('0' ≤ c ∧ c ≤ '9') ∨ ('a' ≤ c ∧ c ≤ 'f')

/-- The `normalizeHex32` of `packages/catalyst-sdk/src/hex.ts`: requires the
`0x` prefix, lowercases, requires a nonempty all-lowercase-hex body of exactly
64 characters. -/
def normalizeHex32 (hex : String) : Except String String :=
  if hex.data.take 2 ≠ ['0', 'x'] then .error "Expected 0x-prefixed hex"
  else
    let h := (hex.data.drop 2).map Char.toLower
    if h.isEmpty ∨ h.any (fun c => ¬ isLowerHexChar c) then .error "Invalid hex"
    else if h.length ≠ 64 then .error "Expected 32-byte hex (64 chars)"
    else .ok ⟨'0' :: 'x' :: h⟩

/-- The `u8` encoder of `packages/catalyst-sdk/src/encoding.ts`. -/
def u8 (v : Int) : Except String Bytes :=
  if v < 0 ∨ v > 0xff then .error "u8 out of range" else .ok [v.toNat]

/-- The `u32le` encoder of `packages/catalyst-sdk/src/encoding.ts`. -/
def u32le (v : Int) : Except String Bytes :=
  if v < 0 ∨ v > 0xffffffff then .error "u32 out of range"
  else .ok (natToLeBytes v.toNat 4)

/-- The `u64le` encoder of `packages/catalyst-sdk/src/encoding.ts`. -/
def u64le (v : Int) : Except String Bytes :=
  if v < 0 ∨ v > 0xffffffffffffffff then .error "u64 out of range"
  else .ok (natToLeBytes v.toNat 8)

/-- The `i64le` encoder of `packages/catalyst-sdk/src/encoding.ts`:
two's-complement into unsigned 64-bit, then `u64le`. -/
def i64le (v : Int) : Except String Bytes :=
  if v < -(2 ^ 63) ∨ v > 2 ^ 63 - 1 then .error "i64 out of range"
  else u64le (if v < 0 then 2 ^ 64 + v else v)

/-- The `vec` encoder of `packages/catalyst-sdk/src/encoding.ts`:
`u32_le(count) || concat(items)`. -/
def vec (items : List Bytes) : Except String Bytes := do
  pure ((← u32le items.length) ++ items.flatten)

/-- The `bytesVec` encoder of `packages/catalyst-sdk/src/encoding.ts`:
`u32_le(len) || bytes`. -/
def bytesVec (bs : Bytes) : Except String Bytes := do
  pure ((← u32le bs.length) ++ bs)

/-- The transaction type of `packages/catalyst-sdk/src/tx.ts` (only the
non-confidential transfer exists). -/
inductive TransactionType where
  | NonConfidentialTransfer
deriving DecidableEq

/-- A `NonConfidentialEntry` of `packages/catalyst-sdk/src/tx.ts`. -/
structure NonConfidentialEntry where
  publicKeyHex : String
  amount : Int
deriving DecidableEq

/-- A `TransactionCore` of `packages/catalyst-sdk/src/tx.ts`. -/
structure TransactionCore where
  txType : TransactionType
  entries : List NonConfidentialEntry
  nonce : Int
  lockTime : Int
  fees : Int
  data : Bytes
deriving DecidableEq

/-- A `Transaction` (envelope) of `packages/catalyst-sdk/src/tx.ts`. -/
structure Transaction where
  core : TransactionCore
  signature : Bytes
  timestamp : Int
deriving DecidableEq

/-- `TX_WIRE_MAGIC_V1`: the UTF-8 bytes of "CTX1". -/
def txWireMagicV1 : Bytes := "CTX1".data.map Char.toNat

/-- `TX_SIG_DOMAIN_V1`: the UTF-8 bytes of "CATALYST_SIG_V1". -/
def txSigDomainV1 : Bytes := "CATALYST_SIG_V1".data.map Char.toNat

/-- The `txTypeTag` of `packages/catalyst-sdk/src/tx.ts`. -/
def txTypeTag : TransactionType → Int
  | .NonConfidentialTransfer => 0

/-- The `serializeEntryAmountNonConfidential` of tx.ts: tag `0x00` + i64 le. -/
def serializeEntryAmountNonConfidential (amount : Int) : Except String Bytes := do
  pure ((← u8 0) ++ (← i64le amount))

/-- The `serializeEntry` of tx.ts. -/
def serializeEntry (e : NonConfidentialEntry) : Except String Bytes := do
  let pk ← hexToBytes (← normalizeHex32 e.publicKeyHex)
  if pk.length ≠ 32 then .error "public key must be 32 bytes"
  else pure (pk ++ (← serializeEntryAmountNonConfidential e.amount))

/-- The `serializeCoreV1` of `packages/catalyst-sdk/src/tx.ts`. -/
def serializeCoreV1 (core : TransactionCore) : Except String Bytes := do
  if core.data.length > 60 then .error "core.data must be <= 60 bytes"
  else
    let entriesBytes ← core.entries.mapM serializeEntry
    pure ((← u8 (txTypeTag core.txType)) ++ (← vec entriesBytes) ++ (← u64le core.nonce)
      ++ (← u32le core.lockTime) ++ (← u64le core.fees) ++ (← bytesVec core.data))

/-- The `serializeTxV1` of `packages/catalyst-sdk/src/tx.ts`. -/
def serializeTxV1 (tx : Transaction) : Except String Bytes := do
  if tx.signature.length ≠ 64 then .error "signature must be 64 bytes"
  else pure ((← serializeCoreV1 tx.core) ++ (← bytesVec tx.signature) ++ (← u64le tx.timestamp))

/-- The `encodeWireTxV1` of `packages/catalyst-sdk/src/tx.ts`:
`TX_WIRE_MAGIC_V1 || serializeTxV1(tx)`. -/
def encodeWireTxV1 (tx : Transaction) : Except String Bytes := do
  pure (txWireMagicV1 ++ (← serializeTxV1 tx))

/-- The `txIdV1` of `packages/catalyst-sdk/src/tx.ts`: the first 32 bytes of
BLAKE2b-512 of the wire bytes, as lowercase 0x-hex. -/
def txIdV1 (tx : Transaction) : Except String String := do
  pure (bytesToHex ((blake2b512 (← encodeWireTxV1 tx)).take 32))

/-- The `signingPayloadV1` of `packages/catalyst-sdk/src/tx.ts`. -/
def signingPayloadV1 (core : TransactionCore) (timestamp chainId : Int)
    (genesisHashHex : String) : Except String Bytes := do
  let genesis ← hexToBytes (← normalizeHex32 genesisHashHex)
  let coreBytes ← serializeCoreV1 core
  pure (txSigDomainV1 ++ (← u64le chainId) ++ genesis ++ coreBytes ++ (← u64le timestamp))

/-- The Ristretto255 group order `L` (`ristretto255.Point.Fn.ORDER`, the
`ORDER` constant of keys.ts and tx.ts). -/
def ristrettoOrderL : Nat := 7237005577332262213973186563042994240857116359379907606001950938285454250989

/-- The `bigIntTo32Le` of `keys.ts` (the catalyst-sdk module appended inside
`packages/wallet-core/test/derivation_vectors_v1.test.ts`): byte `i` is
`(x >> 8i) & 0xff` on a JS BigInt — arithmetic (floor) shift and
two's-complement masking, `Int.fdiv`/`Int.emod` here. -/
def bigIntTo32Le (x : Int) : Bytes :=
  (List.range 32).map (fun i => ((x.fdiv ((256 : Int) ^ i)).emod 256).toNat)

/-- The `privkeyHexToScalar` of `keys.ts`: `LE(bytes32) mod L` (the bigint is
non-negative, so `Nat` carries it exactly). -/
def privkeyHexToScalar (privkeyHex : String) : Except String Nat := do
  pure (leBytesToNat (← hexToBytes (← normalizeHex32 privkeyHex)) % ristrettoOrderL)

/-- The `scalarToBytesLE` of `keys.ts`: the canonical representative
`v = ((s % ORDER) + ORDER) % ORDER`, then its 32 little-endian bytes. JS `%`
on BigInt is the truncated remainder while Lean's `%` on `Int` is already the
canonical one; for every `s` both expressions denote the same `v ∈ [0, L)`. -/
def scalarToBytesLE (s : Int) : Bytes :=
  bigIntTo32Le ((s % (ristrettoOrderL : Int) + (ristrettoOrderL : Int)) % (ristrettoOrderL : Int))

/-- The `hashToScalarBlake2b256` of tx.ts: BLAKE2b-256 read little-endian,
reduced mod L. -/
def hashToScalarBlake2b256 (data : Bytes) : Nat :=
  leBytesToNat (blake2b data 32) % ristrettoOrderL

/-- Noble's `ristretto255.Point.BASE.multiply(x)` followed by `.toBytes()`:
the curve arithmetic itself is external and abstracted as the function
parameter `compressMulBase`, but noble's `multiply` validates its scalar and
throws outside `[1, L)` — in particular `multiply(0)` throws — which the
model keeps. -/
def ristrettoBaseMulBytes (compressMulBase : Nat → Bytes) (x : Nat) :
    Except String Bytes :=
  if x = 0 ∨ ristrettoOrderL ≤ x then .error "invalid scalar"
  else .ok (compressMulBase x)

/-- The `pubkeyFromPrivkeyHex` of `keys.ts`: `compress(x·G)` as lowercase
hex, with noble's scalar validation kept. -/
def pubkeyFromPrivkeyHex (compressMulBase : Nat → Bytes) (privkeyHex : String) :
    Except String String := do
  let x ← privkeyHexToScalar privkeyHex
  pure (bytesToHex (← ristrettoBaseMulBytes compressMulBase x))

/-- The `signSchnorrRistretto` of `packages/catalyst-sdk/src/tx.ts`, with the
Ristretto255 `compress(·G)` as `ristrettoBaseMulBytes` above and the 32
random bytes from `crypto.getRandomValues` passed in as `nonceBytes`. -/
def signSchnorrRistretto (compressMulBase : Nat → Bytes) (nonceBytes : Bytes)
    (privkeyHex : String) (message : Bytes) : Except String Bytes := do
  let x ← privkeyHexToScalar privkeyHex
  let P ← ristrettoBaseMulBytes compressMulBase x
  let k := leBytesToNat nonceBytes % ristrettoOrderL
  let R ← ristrettoBaseMulBytes compressMulBase k
  let e := hashToScalarBlake2b256 (R ++ P ++ message)
  pure (R ++ scalarToBytesLE ((((k + e * x) % ristrettoOrderL : Nat)) : Int))

/-- The result record of `buildAndSignTransferTxV1`. -/
structure BuildResult where
  fromPubkeyHex : String
  tx : Transaction
  wireHex : String
  txIdHex : String
deriving DecidableEq

/-- The `buildAndSignTransferTxV1` of `packages/catalyst-sdk/src/tx.ts`:
builds the two-entry transfer core, signs the chain-bound payload, encodes
the wire image. `compressMulBase` and `nonceBytes` stand for the external
curve operation and the signer's randomness as above. -/
def buildAndSignTransferTxV1 (compressMulBase : Nat → Bytes) (nonceBytes : Bytes)
    (privkeyHex toPubkeyHex : String) (amount noncePlusOne fees : Int)
    (lockTimeSeconds timestampMs chainId : Int) (genesisHashHex : String) :
    Except String BuildResult := do
  let fromPubkeyHex ← pubkeyFromPrivkeyHex compressMulBase privkeyHex
  let toNorm ← normalizeHex32 toPubkeyHex
  let core : TransactionCore :=
    { txType := .NonConfidentialTransfer
      nonce := noncePlusOne
      lockTime := lockTimeSeconds
      fees := fees
      data := []
      entries := [⟨fromPubkeyHex, -amount⟩, ⟨toNorm, amount⟩] }
  let payload ← signingPayloadV1 core timestampMs chainId genesisHashHex
  let sig ← signSchnorrRistretto compressMulBase nonceBytes privkeyHex payload
  let tx : Transaction := { core := core, signature := sig, timestamp := timestampMs }
  let wire ← encodeWireTxV1 tx
  pure { fromPubkeyHex := fromPubkeyHex, tx := tx, wireHex := bytesToHex wire,
         txIdHex := (← txIdV1 tx) }

/-- The KDF parameter record of a `VaultRecordV1`
(`packages/wallet-core/src/vault.ts`). -/
structure VaultKdf where
  name : String
  bigN : Int
  r : Int
  p : Int
  saltHex : String
deriving DecidableEq

/-- The cipher parameter record of a `VaultRecordV1`. -/
structure VaultCipher where
  name : String
  nonceHex : String
deriving DecidableEq

/-- A `VaultRecordV1` of `packages/wallet-core/src/vault.ts`. -/
structure VaultRecordV1 where
  version : Int
  kdf : VaultKdf
  cipher : VaultCipher
  ciphertextHex : String
deriving DecidableEq

/-- The vault module's local `hexToBytes`: like the sdk one it drops nothing
silently except that it has no NaN guard at all — an unparsable pair is stored
as `ToUint8(NaN) = 0`. -/
def vaultHexToBytes (hex : String) : Except String Bytes :=
  if hex.data.take 2 ≠ ['0', 'x'] then .error "Expected 0x hex"
  else
    let h := hex.data.drop 2
    if h.length % 2 ≠ 0 then .error "Invalid hex length"
    else .ok ((chunkPairs h).map (fun p => jsToUint8 (jsParseIntHex p)))

/-- Byte encoding of the password (`new TextEncoder().encode(password)`); the
code points serve as the bytes here — only injectivity on equal strings
(determinism) matters to the theorems below. -/
def utf8Encode (s : String) : Bytes := s.data.map Char.toNat

/-- Modelled from the spec: scrypt is the external `@noble/hashes` primitive;
the vault only needs it to be a deterministic function of
`(password, salt, N, r, p, dkLen)`, so it is a function parameter
`scryptF` throughout. This mirrors `deriveKeyScrypt` of vault.ts. -/
def deriveKeyScrypt (scryptF : Bytes → Bytes → Int → Int → Int → Int → Bytes)
    (password : String) (salt : Bytes) (bigN r p dkLen : Int) : Bytes :=
  scryptF (utf8Encode password) salt bigN r p dkLen

/-- Modelled from the spec: the XChaCha20 keystream of the external
`@noble/ciphers` primitive, abstracted as a per-index byte function `ksF`
(reduced mod 256: the real keystream produces bytes). -/
def xchachaKeystream (ksF : Bytes → Bytes → Nat → Nat) (key nonce : Bytes)
    (len : Nat) : Bytes :=
  (List.range len).map (fun i => ksF key nonce i % 256)

/-- Modelled from the spec: the 16-byte Poly1305 tag over the ciphertext,
abstracted as a per-index byte function `tagF`. -/
def polyTag (tagF : Bytes → Bytes → Bytes → Nat → Nat) (key nonce ct : Bytes) : Bytes :=
  (List.range 16).map (fun i => tagF key nonce ct i % 256)

/-- Pointwise xor of two byte lists (stream-cipher application). -/
def zipWithXor (a b : Bytes) : Bytes := List.zipWith (fun x y => x ^^^ y) a b

/-- Modelled from the spec: `xchacha20poly1305(key, nonce).encrypt(p)` —
stream-xor the plaintext, append the tag computed over the ciphertext. -/
def xchachaEncrypt (ksF : Bytes → Bytes → Nat → Nat)
    (tagF : Bytes → Bytes → Bytes → Nat → Nat) (key nonce plaintext : Bytes) : Bytes :=
  let ct := zipWithXor plaintext (xchachaKeystream ksF key nonce plaintext.length)
  ct ++ polyTag tagF key nonce ct

/-- Modelled from the spec: `xchacha20poly1305(key, nonce).decrypt(data)` —
split off the 16-byte tag, recompute and compare it, and only then
stream-xor the ciphertext back; failures surface as the AEAD's error. -/
def xchachaDecrypt (ksF : Bytes → Bytes → Nat → Nat)
    (tagF : Bytes → Bytes → Bytes → Nat → Nat) (key nonce data : Bytes) :
    Except String Bytes :=
  if data.length < 16 then .error "invalid tag"
  else
    let ct := data.take (data.length - 16)
    let tag := data.drop (data.length - 16)
    if tag = polyTag tagF key nonce ct
    then .ok (zipWithXor ct (xchachaKeystream ksF key nonce ct.length))
    else .error "invalid tag"

/-- The `createVaultV1` of `packages/wallet-core/src/vault.ts`; `salt` and
`nonce` are the 16 and 24 fresh random bytes drawn from
`crypto.getRandomValues`, passed in explicitly. -/
def createVaultV1 (scryptF : Bytes → Bytes → Int → Int → Int → Int → Bytes)
    (ksF : Bytes → Bytes → Nat → Nat) (tagF : Bytes → Bytes → Bytes → Nat → Nat)
    (password : String) (plaintext salt nonce : Bytes) : VaultRecordV1 :=
  let key := deriveKeyScrypt scryptF password salt 32768 8 1 32
  let ciphertext := xchachaEncrypt ksF tagF key nonce plaintext
  { version := 1
    kdf := { name := "scrypt", bigN := 32768, r := 8, p := 1, saltHex := bytesToHex salt }
    cipher := { name := "xchacha20-poly1305", nonceHex := bytesToHex nonce }
    ciphertextHex := bytesToHex ciphertext }

/-- The `openVaultV1` of `packages/wallet-core/src/vault.ts`. -/
def openVaultV1 (scryptF : Bytes → Bytes → Int → Int → Int → Int → Bytes)
    (ksF : Bytes → Bytes → Nat → Nat) (tagF : Bytes → Bytes → Bytes → Nat → Nat)
    (password : String) (record : VaultRecordV1) : Except String Bytes := do
  if record.version ≠ 1 then .error "Unsupported vault version"
  else if record.kdf.name ≠ "scrypt" then .error "Unsupported KDF"
  else if record.cipher.name ≠ "xchacha20-poly1305" then .error "Unsupported cipher"
  else
    let salt ← vaultHexToBytes record.kdf.saltHex
    let nonce ← vaultHexToBytes record.cipher.nonceHex
    let ciphertext ← vaultHexToBytes record.ciphertextHex
    let key := deriveKeyScrypt scryptF password salt record.kdf.bigN record.kdf.r record.kdf.p 32
    xchachaDecrypt ksF tagF key nonce ciphertext

/-- `DST_MASTER` of the derivation module: UTF-8 bytes of
"CATALYST_WALLET_V1_MASTER". -/
def dstMaster : Bytes := "CATALYST_WALLET_V1_MASTER".data.map Char.toNat

/-- `DST_ACCOUNT` of the derivation module: UTF-8 bytes of
"CATALYST_WALLET_V1_ACCOUNT". -/
def dstAccount : Bytes := "CATALYST_WALLET_V1_ACCOUNT".data.map Char.toNat

/-- The derivation module's local `u32le` (same check, different message). -/
def derivationU32le (n : Int) : Except String Bytes :=
  if n < 0 ∨ n > 0xffffffff then .error "account_index must be u32"
  else .ok (natToLeBytes n.toNat 4)

/-- The derivation module's `h512`: BLAKE2b with 64-byte digest. -/
def h512 (data : Bytes) : Bytes := blake2b data 64

/-- The `deriveMasterKeyMaterialV1` of the derivation module:
`BLAKE2b-512(DST_MASTER || seed)` after the 64-byte seed check. -/
def deriveMasterKeyMaterialV1 (seed64 : Bytes) : Except String Bytes :=
  if seed64.length ≠ 64 then .error "seed must be 64 bytes"
  else .ok (h512 (dstMaster ++ seed64))

/-- The `deriveAccountPrivkeyHexV1` of the derivation module:
`ikm = BLAKE2b-512(DST_ACCOUNT || master || u32_le(i))`, private key =
`ikm[0..32]` as lowercase hex. -/
def deriveAccountPrivkeyHexV1 (seed64 : Bytes) (accountIndex : Int) :
    Except String String := do
  let master ← deriveMasterKeyMaterialV1 seed64
  let ikm := h512 (dstAccount ++ master ++ (← derivationU32le accountIndex))
  pure (bytesToHex (ikm.take 32))

/-- A definition that follows the words of the specification (§4.3) rather
than the source, for the refinement theorem of claim C6: the raw private-key
bytes `BLAKE2b-512(DST_ACCOUNT || BLAKE2b-512(DST_MASTER || seed) || u32_le(i))[0..32]`. -/
def derivedPrivkeyBytesSpec (seed : Bytes) (i : Nat) : Bytes :=
  (blake2b512 (dstAccount ++ blake2b512 (dstMaster ++ seed) ++ natToLeBytes i 4)).take 32

/-- A failed RPC attempt against one endpoint, classified as in
`packages/catalyst-sdk/src/rpc.ts`: `RpcTimeoutError` and `AbortError` both
appear as `timeout`; a fetch `TypeError` is `networkError`; a non-ok HTTP
response is `httpError status`; a JSON-RPC `error` object is `rpcError`. -/
inductive RpcFailure where
  | timeout
  | networkError
  | httpError (status : Nat)
  | rpcError (code : Int) (message : String)
deriving DecidableEq

/-- The outcome of one `fetchRpc` against one endpoint. -/
abbrev RpcOutcome := Except RpcFailure String

/-- The `shouldFailover` of `packages/catalyst-sdk/src/rpc.ts`. -/
def shouldFailover : RpcFailure → Bool
  | .timeout => true
  | .networkError => true
  | .httpError status => 500 ≤ status ∨ status = 408 ∨ status = 429
  | .rpcError _ _ => false

/-- The `orderedIndexesForAttempt` of rpc.ts: the cyclic order
`[start, …, n−1, 0, …, start−1]` with `start` the last-good index clamped
into `[0, n−1]` (`Math.max(0, …)` is a no-op on naturals). -/
def orderedIndexesForAttempt (n lastGood : Nat) : List Nat :=
  let start := min (n - 1) lastGood
  List.range' start (n - start) ++ List.range start

/-- The attempt loop inside `call` of rpc.ts: on success return the result and
record the endpoint index as last-good; on failure remember the error and
continue only when failover is allowed and the error class is retryable; when
candidates run out, raise the last error (`none` can only appear with an empty
candidate list, which `call` never produces). Returns the result together
with the updated last-good index. -/
def callLoop (env : Nat → RpcOutcome) (allowFailover : Bool) :
    List Nat → Nat → Option RpcFailure → Except (Option RpcFailure) String × Nat
  | [], lastGood, lastErr => (.error lastErr, lastGood)
  | idx :: rest, lastGood, lastErr =>
    match env idx with
    | .ok v => (.ok v, idx)
    | .error e =>
      if ¬ allowFailover ∨ ¬ shouldFailover e then (.error (some e), lastGood)
      else callLoop env allowFailover rest lastGood (some e)

/-- One `call` of the `CatalystRpcClient` on an `n`-endpoint list with
last-good index `lastGood`: `env i` is the outcome of POSTing the request to
endpoint `i`. -/
def rpcCall (env : Nat → RpcOutcome) (n lastGood : Nat) (allowFailover : Bool) :
    Except (Option RpcFailure) String × Nat :=
  let idxs := if allowFailover then orderedIndexesForAttempt n lastGood else [lastGood]
  callLoop env allowFailover idxs lastGood none

/-- Per-sender next-nonce bookkeeping (`nextNonceByAddrRef` of the app
components): `none` means the address has not been seen. -/
abbrev NonceMap := String → Option Int

/-- The `allocateNonce` of the app component (src/unnamed/part_000): inside
the per-sender critical section, read the cached next nonce — falling back to
`getNonce(sender) + 1` from RPC (`committedNonce` is that RPC answer) — store
its successor, and return it. The promise-chain mutual exclusion serializes
the bodies, so the model takes one step at a time. -/
def allocateNonce (committedNonce : Int) (m : NonceMap) (sender : String) :
    Int × NonceMap :=
  let n := match m sender with
    | none => committedNonce + 1
    | some n => n
  (n, fun a => if a = sender then some (n + 1) else m a)

/-- A sequence of `k` `allocateNonce` calls for one sender, in FIFO order. -/
def allocateNonceSeq (committedNonce : Int) (m : NonceMap) (sender : String) :
    Nat → List Int × NonceMap
  | 0 => ([], m)
  | k + 1 =>
    let (n, m1) := allocateNonce committedNonce m sender
    let (rest, m2) := allocateNonceSeq committedNonce m1 sender k
    (n :: rest, m2)

/-- The `bumpNextNonceFloor` of the app component: raise the cached next nonce
to `committedNonce + 1` when unset or lower, never lowering it. -/
def bumpNextNonceFloor (m : NonceMap) (sender : String) (committedNonce : Int) :
    NonceMap :=
  let floor := committedNonce + 1
  match m sender with
  | none => fun a => if a = sender then some floor else m a
  | some cur =>
    if cur < floor then (fun a => if a = sender then some floor else m a) else m

/-- Errors a `send` can surface before or instead of broadcasting. -/
inductive SendErr where
  | chainNotVerified
  | amountNonPositive
  | insufficientFunds (bal required : Int)
deriving DecidableEq

/-- What a `send` did: whether `sendRawTransaction` was invoked, and the error
it surfaced if it stopped early. -/
structure SendEffect where
  broadcasted : Bool
  error : Option SendErr
deriving DecidableEq

/-- The decision path of `send` in `apps/wallet-web/src/ui/App.tsx`
(lines 644–710): chain identity must verify, the amount must be positive, the
fee falls back to `estimateFee`, the balance falls back to `getBalance`, and
the preflight guard `bal < required` (with `required = fees` on self-transfer,
`amount + fees` otherwise) stops the send before the nonce is allocated, the
transaction signed, or `sendRawTransaction` invoked. -/
def sendWalletWeb (chainIdentityOk : Bool) (balanceState feeState : Option Int)
    (rpcBalance rpcFee : Int) (toHex fromHex : String) (amount : Int) : SendEffect :=
  if ¬ chainIdentityOk then ⟨false, some .chainNotVerified⟩
  else if amount ≤ 0 then ⟨false, some .amountNonPositive⟩
  else
    let fees := feeState.getD rpcFee
    let bal := balanceState.getD rpcBalance
    let required := if toHex = fromHex then fees else amount + fees
    if bal < required then ⟨false, some (.insufficientFunds bal required)⟩
    else ⟨true, none⟩

/-- The decision path of `send` in src/unnamed/part_000 (lines 356–411): after
the chain-identity flag check it estimates the fee, allocates a nonce, signs,
and broadcasts — it has no amount-positivity check and no balance preflight
of any kind. -/
def sendPart000 (chainOk : Bool) (feeState : Option Int) (rpcFee : Int)
    (toHex fromHex : String) (amount : Int) : SendEffect :=
  if ¬ chainOk then ⟨false, some .chainNotVerified⟩
  else
    let _fees := feeState.getD rpcFee
    ⟨true, none⟩

/-- A `WalletAccountV2` of the wallet model (src/unnamed/part_003). -/
structure WalletAccountV2 where
  id : String
  label : String
  addressHex : String
  accountIndex : Option Int
  createdAtMs : Int
deriving DecidableEq

/-- The wallet kind of a `WalletDataV2`. -/
inductive WalletKind where
  | mnemonicV1
  | privateKeyV1
deriving DecidableEq

/-- A `WalletDataV2` of the wallet model (src/unnamed/part_003), restricted to
the fields `getSelectedAccount` reads plus the discriminating ones. -/
structure WalletDataV2 where
  kind : WalletKind
  name : String
  createdAtMs : Int
  selectedAccountId : String
  accounts : List WalletAccountV2
deriving DecidableEq

/-- The `getSelectedAccount` of src/unnamed/part_003 (lines 121–124):
`byId ?? data.accounts[0]!` — the account whose id matches
`selectedAccountId`, or the first account when no id matches (`none` only on
an empty accounts list, where the source's non-null assertion lies). -/
def getSelectedAccount (d : WalletDataV2) : Option WalletAccountV2 :=
  match d.accounts.find? (fun a => a.id = d.selectedAccountId) with
  | some a => some a
  | none => d.accounts.head?

/-- A retryable failure: `shouldFailover` accepts it. -/
def retryableAt (env : Nat → RpcOutcome) (i : Nat) : Prop :=
  ∃ e, env i = .error e ∧ shouldFailover e = true

/-- A concrete three-endpoint environment for the C8 witness: endpoint 0
times out, endpoint 1 answers HTTP 503, endpoint 2 succeeds. -/
def rpcEnvW : Nat → RpcOutcome :=
  fun i => if i = 0 then .error .timeout
    else if i = 1 then .error (.httpError 503) else .ok "r"

/-- The scenario-A fixture core of `packages/catalyst-sdk/test/fixtures` (the
values the sdk test reads from `v1_vectors.json`): two entries
`{0x0101…01, −7}` and `{0x0202…02, +7}`, nonce 1, lock_time 0, fees 3,
empty data. -/
def fixtureCore : TransactionCore :=
  { txType := .NonConfidentialTransfer
    entries := [⟨bytesToHex (List.replicate 32 1), -7⟩, ⟨bytesToHex (List.replicate 32 2), 7⟩]
    nonce := 1
    lockTime := 0
    fees := 3
    data := [] }

/-- The scenario-A fixture envelope: the core above, an all-zero 64-byte
signature, and the fixture timestamp 1700000000000 ms. -/
def fixtureTx : Transaction :=
  { core := fixtureCore, signature := List.replicate 64 0, timestamp := 1700000000000 }

/-- The serialized fixture envelope (`serialize_core || bytes_vec(signature)
|| u64_le(timestamp)`), stated as explicit bytes. -/
def fixtureEnvelopeBytes : Bytes :=
  [0, 2, 0, 0, 0, 1, 1, 1, 1, 1, 1, 1, 1, 1, 1, 1, 1, 1, 1, 1,
   1, 1, 1, 1, 1, 1, 1, 1, 1, 1, 1, 1, 1, 1, 1, 1, 1, 0, 249, 255,
   255, 255, 255, 255, 255, 255, 2, 2, 2, 2, 2, 2, 2, 2, 2, 2, 2, 2, 2, 2,
   2, 2, 2, 2, 2, 2, 2, 2, 2, 2, 2, 2, 2, 2, 2, 2, 2, 2, 0, 7,
   0, 0, 0, 0, 0, 0, 0, 1, 0, 0, 0, 0, 0, 0, 0, 0, 0, 0, 0, 3,
   0, 0, 0, 0, 0, 0, 0, 0, 0, 0, 0, 64, 0, 0, 0, 0, 0, 0, 0, 0,
   0, 0, 0, 0, 0, 0, 0, 0, 0, 0, 0, 0, 0, 0, 0, 0, 0, 0, 0, 0,
   0, 0, 0, 0, 0, 0, 0, 0, 0, 0, 0, 0, 0, 0, 0, 0, 0, 0, 0, 0,
   0, 0, 0, 0, 0, 0, 0, 0, 0, 0, 0, 0, 0, 0, 0, 0, 0, 0, 0, 0,
   104, 229, 207, 139, 1, 0, 0]

/-- The serialized fixture core, stated as explicit bytes. -/
def fixtureCoreBytes : Bytes :=
  [0, 2, 0, 0, 0, 1, 1, 1, 1, 1, 1, 1, 1, 1, 1, 1, 1, 1, 1, 1,
   1, 1, 1, 1, 1, 1, 1, 1, 1, 1, 1, 1, 1, 1, 1, 1, 1, 0, 249, 255,
   255, 255, 255, 255, 255, 255, 2, 2, 2, 2, 2, 2, 2, 2, 2, 2, 2, 2, 2, 2,
   2, 2, 2, 2, 2, 2, 2, 2, 2, 2, 2, 2, 2, 2, 2, 2, 2, 2, 0, 7,
   0, 0, 0, 0, 0, 0, 0, 1, 0, 0, 0, 0, 0, 0, 0, 0, 0, 0, 0, 3,
   0, 0, 0, 0, 0, 0, 0, 0, 0, 0, 0]

end Catalyst

namespace Catalyst

/-- Supporting evidence that `blake2b512` is genuine BLAKE2b-512: the RFC 7693
appendix A test vector for the message "abc". -/
theorem blake2b512_abc_rfc7693 :
    blake2b512 [97, 98, 99] =
      [186, 128, 165, 63, 152, 28, 77, 13, 106, 39, 151, 182, 159, 18, 246, 233, 76, 33,
       47, 20, 104, 90, 196, 183, 75, 18, 187, 111, 219, 255, 162, 209, 125, 135, 197,
       57, 42, 171, 121, 45, 194, 82, 213, 222, 69, 51, 204, 149, 24, 211, 138, 168,
       219, 241, 146, 90, 185, 35, 134, 237, 212, 0, 153, 35] := by
  decide

/-- Bind of a successful `Except` computation reduces to the continuation. -/
theorem exceptBindOk {ε α β : Type} (a : α) (f : α → Except ε β) :
    (Except.ok a >>= f) = f a := rfl

/-- Bind of a failed `Except` computation propagates the error. -/
theorem exceptBindErr {ε α β : Type} (e : ε) (f : α → Except ε β) :
    ((Except.error e : Except ε α) >>= f) = .error e := rfl

/-- Map over a successful `Except` computation. -/
theorem exceptMapOk {ε α β : Type} (a : α) (f : α → β) :
    (f <$> (Except.ok a : Except ε α)) = .ok (f a) := rfl

/-- Map over a failed `Except` computation. -/
theorem exceptMapErr {ε α β : Type} (e : ε) (f : α → β) :
    (f <$> (Except.error e : Except ε α)) = (.error e : Except ε β) := rfl

/-- C1: for the scenario-A fixture transaction, the wire bytes produced by
`encodeWireTxV1` are "CTX1" followed by the serialized envelope, and `txIdV1`
— the first 32 bytes of BLAKE2b-512 of those wire bytes, emitted as lowercase
0x-hex — equals
`0x0da2e9dad155e0f38a4e7dfd109c5afb458e01fa6ac55363ceeb20a4d2098a0f`. -/
theorem fixture_wire_and_txid_v1 :
    serializeTxV1 fixtureTx = .ok fixtureEnvelopeBytes
    ∧ encodeWireTxV1 fixtureTx = .ok (txWireMagicV1 ++ fixtureEnvelopeBytes)
    ∧ txIdV1 fixtureTx =
        .ok (bytesToHex ((blake2b512 (txWireMagicV1 ++ fixtureEnvelopeBytes)).take 32))
    ∧ txIdV1 fixtureTx =
        .ok "0x0da2e9dad155e0f38a4e7dfd109c5afb458e01fa6ac55363ceeb20a4d2098a0f" := by
  refine ⟨by decide, by decide, by decide, by decide⟩

end Catalyst

namespace Catalyst

/-- C9 (code-bug evidence): `hexToBytes` applied to `"0x1z"` — a 0x-prefixed
string of even hex length whose body contains the non-hex character 'z' —
returns the byte `[0x01]` instead of raising: JS `parseInt("1z", 16)` parses
the digit prefix `"1"` and ignores the trailing garbage, and the only guard in
the source is `Number.isFinite`. The spec's policy ("the codec … never
silently normalizes invalid input") is violated at this input. -/
theorem hexToBytes_accepts_invalid_char :
    hexToBytes "0x1z" = .ok [1]
    ∧ hexCharVal 'z' = none
    ∧ ("0x1z".data.drop 2).length % 2 = 0 := by
  refine ⟨by decide, by decide, by decide⟩

/-- C3 (code-bug evidence): with balance 100, fee 5, amount 200 and a
recipient different from the sender, the `send` of src/unnamed/part_000
broadcasts (no insufficient-funds guard exists on that path), while the
`send` of apps/wallet-web — the behaviour the spec describes — stops with
`InsufficientFunds{have=100, need=205}` and never invokes
`sendRawTransaction`. -/
theorem send_insufficient_funds_guard_divergence :
    sendPart000 true (some 5) 5 "0xbb" "0xaa" 200 = ⟨true, none⟩
    ∧ sendWalletWeb true (some 100) (some 5) 100 5 "0xbb" "0xaa" 200
        = ⟨false, some (.insufficientFunds 100 205)⟩ := by
  refine ⟨by decide, by decide⟩

/-- C10: for every wallet whose accounts list is non-empty,
`getSelectedAccount` never fails — it returns some account, and when
`selectedAccountId` matches no account id it returns the first account
instead of raising. -/
theorem getSelectedAccount_total_on_nonempty (d : WalletDataV2)
    (h : d.accounts ≠ []) :
    (getSelectedAccount d).isSome = true
    ∧ ((∀ a ∈ d.accounts, a.id ≠ d.selectedAccountId) →
        getSelectedAccount d = d.accounts.head?) := by
  constructor
  · unfold getSelectedAccount
    cases hf : d.accounts.find? (fun a => a.id = d.selectedAccountId) with
    | some a => simp
    | none =>
      cases hacc : d.accounts with
      | nil => exact absurd hacc h
      | cons a t => simp [hacc]
  · intro hnone
    unfold getSelectedAccount
    have : d.accounts.find? (fun a => a.id = d.selectedAccountId) = none := by
      rw [List.find?_eq_none]
      intro a ha
      simpa using hnone a ha
    rw [this]

/-- Witness for C10: a concrete two-account wallet whose `selectedAccountId`
dangles; `getSelectedAccount` returns the first account. -/
theorem getSelectedAccount_total_on_nonempty_witness :
    (getSelectedAccount
      { kind := .mnemonicV1, name := "w", createdAtMs := 0,
        selectedAccountId := "gone",
        accounts := [⟨"a1", "Account 1", "0x01", some 0, 0⟩,
                     ⟨"a2", "Account 2", "0x02", some 1, 0⟩] }).isSome = true
    ∧ getSelectedAccount
      { kind := .mnemonicV1, name := "w", createdAtMs := 0,
        selectedAccountId := "gone",
        accounts := [⟨"a1", "Account 1", "0x01", some 0, 0⟩,
                     ⟨"a2", "Account 2", "0x02", some 1, 0⟩] }
      = some ⟨"a1", "Account 1", "0x01", some 0, 0⟩ := by
  have h := getSelectedAccount_total_on_nonempty
    { kind := .mnemonicV1, name := "w", createdAtMs := 0,
      selectedAccountId := "gone",
      accounts := [⟨"a1", "Account 1", "0x01", some 0, 0⟩,
                   ⟨"a2", "Account 2", "0x02", some 1, 0⟩] } (by decide)
  refine ⟨h.1, ?_⟩
  rw [h.2 (by decide)]
  decide

/-- C7: nonce-allocator contiguity. With the per-sender cache seeded at `v`,
`k` FIFO `allocateNonce` calls return exactly `v, v+1, …, v+k−1` and leave the
cache at `v+k`; with the cache unset, the first call reads the committed nonce
`g` from RPC and the calls return `g+1, g+2, …`; `bumpNextNonceFloor` sets the
cache to the maximum of its current value and `committed+1`, never lowering
it. -/
theorem nonce_allocator_contiguity :
    (∀ (g : Int) (m : NonceMap) (a : String) (v : Int) (k : Nat), m a = some v →
      (allocateNonceSeq g m a k).1 = (List.range k).map (fun (j : Nat) => v + (j : Int))
      ∧ (allocateNonceSeq g m a k).2 a = some (v + (k : Int)))
    ∧ (∀ (g : Int) (m : NonceMap) (a : String) (k : Nat), m a = none →
      (allocateNonceSeq g m a (k + 1)).1
          = (List.range (k + 1)).map (fun (j : Nat) => g + 1 + (j : Int))
      ∧ (allocateNonceSeq g m a (k + 1)).2 a = some (g + 1 + ((k : Int) + 1)))
    ∧ (∀ (m : NonceMap) (a : String) (c : Int),
      (m a = none → bumpNextNonceFloor m a c a = some (c + 1))
      ∧ (∀ cur, m a = some cur → bumpNextNonceFloor m a c a = some (max cur (c + 1)))) := by
  have seeded : ∀ (g : Int) (m : NonceMap) (a : String) (v : Int) (k : Nat), m a = some v →
      (allocateNonceSeq g m a k).1 = (List.range k).map (fun (j : Nat) => v + (j : Int))
      ∧ (allocateNonceSeq g m a k).2 a = some (v + (k : Int)) := by
    intro g m a v k
    induction k generalizing m v with
    | zero => intro hm; simp [allocateNonceSeq, hm]
    | succ k ih =>
      intro hm
      have halloc : allocateNonce g m a
          = (v, fun x => if x = a then some (v + 1) else m x) := by
        simp [allocateNonce, hm]
      have hnext : (fun x => if x = a then some (v + 1) else m x) a = some (v + 1) := by
        simp
      obtain ⟨ih1, ih2⟩ :=
        ih (fun x => if x = a then some (v + 1) else m x) (v + 1) hnext
      have hseq : allocateNonceSeq g m a (k + 1)
          = (v :: (allocateNonceSeq g (fun x => if x = a then some (v + 1) else m x) a k).1,
             (allocateNonceSeq g (fun x => if x = a then some (v + 1) else m x) a k).2) := by
        simp [allocateNonceSeq, halloc]
      constructor
      · rw [hseq]
        simp only [ih1, List.range_succ_eq_map, List.map_cons, List.map_map]
        congr 1
        · simp
        · apply List.map_congr_left
          intro j hj
          simp only [Function.comp_apply]
          push_cast
          ring
      · rw [hseq]
        simp only [ih2]
        congr 1
        push_cast
        ring
  refine ⟨seeded, ?_, ?_⟩
  · intro g m a k hm
    have halloc : allocateNonce g m a
        = (g + 1, fun x => if x = a then some (g + 1 + 1) else m x) := by
      simp [allocateNonce, hm]
    have hnext : (fun x => if x = a then some (g + 1 + 1) else m x) a = some (g + 1 + 1) := by
      simp
    obtain ⟨s1, s2⟩ :=
      seeded g (fun x => if x = a then some (g + 1 + 1) else m x) a (g + 1 + 1) k hnext
    have hseq : allocateNonceSeq g m a (k + 1)
        = ((g + 1) :: (allocateNonceSeq g (fun x => if x = a then some (g + 1 + 1) else m x) a k).1,
           (allocateNonceSeq g (fun x => if x = a then some (g + 1 + 1) else m x) a k).2) := by
      simp [allocateNonceSeq, halloc]
    constructor
    · rw [hseq]
      simp only [s1, List.range_succ_eq_map, List.map_cons, List.map_map]
      congr 1
      · simp
      · apply List.map_congr_left
        intro j hj
        simp only [Function.comp_apply]
        push_cast
        ring
    · rw [hseq]
      simp only [s2]
      congr 1
      ring
  · intro m a c
    constructor
    · intro hm
      simp [bumpNextNonceFloor, hm]
    · intro cur hm
      by_cases hlt : cur < c + 1
      · simp only [bumpNextNonceFloor, hm]
        rw [if_pos hlt]
        simp
        omega
      · simp only [bumpNextNonceFloor, hm]
        rw [if_neg hlt]
        rw [hm]
        congr 1
        omega

/-- Witness for C7: with `next_nonce["A"]` pre-seeded to 5, three
`allocate("A")` calls return exactly 5, 6, 7 in call order and the cache holds
8 afterwards; a `bump_floor("A", 3)` then does not lower the cache. -/
theorem nonce_allocator_contiguity_witness :
    (allocateNonceSeq 0 (fun x => if x = "A" then some 5 else none) "A" 3).1 = [5, 6, 7]
    ∧ (allocateNonceSeq 0 (fun x => if x = "A" then some 5 else none) "A" 3).2 "A" = some 8
    ∧ bumpNextNonceFloor
        ((allocateNonceSeq 0 (fun x => if x = "A" then some 5 else none) "A" 3).2) "A" 3 "A"
      = some 8 := by
  have h := nonce_allocator_contiguity.1 0
    (fun x => if x = "A" then some 5 else none) "A" 5 3 (by simp)
  have h1 : (allocateNonceSeq 0 (fun x => if x = "A" then some 5 else none) "A" 3).1
      = [5, 6, 7] := by
    rw [h.1]; decide
  have h2 : (allocateNonceSeq 0 (fun x => if x = "A" then some 5 else none) "A" 3).2 "A"
      = some 8 := by
    rw [h.2]; decide
  have hb := (nonce_allocator_contiguity.2.2
    ((allocateNonceSeq 0 (fun x => if x = "A" then some 5 else none) "A" 3).2) "A" 3).2
    8 h2
  refine ⟨h1, h2, ?_⟩
  rw [hb]; decide

/-- Skipping a retryable-failure prefix: the attempt loop forwards past the
first `k` candidates when each fails retryably, for some remembered error. -/
theorem callLoop_skip_prefix (env : Nat → RpcOutcome) (idxs : List Nat)
    (lastGood : Nat) (k : Nat) (hk : k ≤ idxs.length)
    (hfail : ∀ j, (hj : j < k) → retryableAt env (idxs.get ⟨j, by omega⟩)) :
    ∀ le, ∃ le', callLoop env true idxs lastGood le
      = callLoop env true (idxs.drop k) lastGood le' := by
  induction k generalizing idxs with
  | zero => intro le; exact ⟨le, by simp⟩
  | succ k ih =>
    intro le
    cases idxs with
    | nil => simp at hk
    | cons i rest =>
      obtain ⟨e, he, hr⟩ := hfail 0 (by omega)
      simp only [List.get] at he
      have step : callLoop env true (i :: rest) lastGood le
          = callLoop env true rest lastGood (some e) := by
        simp [callLoop, he, hr]
      rw [step]
      have hk' : k ≤ rest.length := by simpa using hk
      exact ih rest hk' (fun j hj => by
        have := hfail (j + 1) (by omega)
        simpa [List.get] using this) (some e)

/-- When every candidate fails retryably, the loop raises the error of the
last candidate and leaves the last-good index unchanged. -/
theorem callLoop_all_fail (env : Nat → RpcOutcome) (idxs : List Nat)
    (lastGood : Nat) (hne : idxs ≠ [])
    (hfail : ∀ i ∈ idxs, retryableAt env i)
    (eLast : RpcFailure) (heLast : env (idxs.getLast hne) = .error eLast) :
    ∀ le, callLoop env true idxs lastGood le = (.error (some eLast), lastGood) := by
  induction idxs with
  | nil => exact absurd rfl hne
  | cons i rest ih =>
    intro le
    obtain ⟨e, he, hr⟩ := hfail i (by simp)
    cases hrest : rest with
    | nil =>
      subst hrest
      have : (([i] : List Nat).getLast hne) = i := rfl
      rw [this] at heLast
      rw [heLast] at he
      cases he
      simp [callLoop, heLast, hr]
    | cons r t =>
      subst hrest
      have hne' : r :: t ≠ [] := by simp
      have hlast : ((i :: r :: t).getLast hne) = ((r :: t).getLast hne') :=
        List.getLast_cons hne'
      rw [hlast] at heLast
      have step : callLoop env true (i :: r :: t) lastGood le
          = callLoop env true (r :: t) lastGood (some e) := by
        simp [callLoop, he, hr]
      rw [step]
      exact ih hne' (fun x hx => hfail x (List.mem_cons_of_mem i hx)) heLast (some e)

/-- C8: RPC failover correctness. With candidates tried in the cyclic order
starting at the (clamped) last-good index: (i) if the first `k` candidates
fail retryably and candidate `k+1` succeeds, `call` returns that endpoint's
result and the last-good index becomes that endpoint; (ii) a non-retryable
error among the candidates stops the scan and is raised; (iii) with
`allow_failover = false` only the current last-good endpoint is tried; (iv) if
every candidate fails (retryably), the last error encountered is raised; and
(v) the retryable classes are exactly timeout/abort, network error, and HTTP
5xx, 408 or 429 — a JSON-RPC error object never fails over. -/
theorem rpc_failover_correctness :
    (∀ (env : Nat → RpcOutcome) (n lastGood k : Nat) (v : String)
      (hk : k < (orderedIndexesForAttempt n lastGood).length),
      (∀ j, (hj : j < k) →
        retryableAt env ((orderedIndexesForAttempt n lastGood).get ⟨j, by omega⟩)) →
      env ((orderedIndexesForAttempt n lastGood).get ⟨k, hk⟩) = .ok v →
      rpcCall env n lastGood true
        = (.ok v, (orderedIndexesForAttempt n lastGood).get ⟨k, hk⟩))
    ∧ (∀ (env : Nat → RpcOutcome) (n lastGood k : Nat) (e : RpcFailure)
      (hk : k < (orderedIndexesForAttempt n lastGood).length),
      (∀ j, (hj : j < k) →
        retryableAt env ((orderedIndexesForAttempt n lastGood).get ⟨j, by omega⟩)) →
      env ((orderedIndexesForAttempt n lastGood).get ⟨k, hk⟩) = .error e →
      shouldFailover e = false →
      rpcCall env n lastGood true = (.error (some e), lastGood))
    ∧ (∀ (env : Nat → RpcOutcome) (n lastGood : Nat),
      rpcCall env n lastGood false
        = match env lastGood with
          | .ok v => (.ok v, lastGood)
          | .error e => (.error (some e), lastGood))
    ∧ (∀ (env : Nat → RpcOutcome) (n lastGood : Nat)
      (hne : orderedIndexesForAttempt n lastGood ≠ []) (eLast : RpcFailure),
      (∀ i ∈ orderedIndexesForAttempt n lastGood, retryableAt env i) →
      env ((orderedIndexesForAttempt n lastGood).getLast hne) = .error eLast →
      rpcCall env n lastGood true = (.error (some eLast), lastGood))
    ∧ (∀ e : RpcFailure, shouldFailover e = true ↔
        (e = .timeout ∨ e = .networkError
          ∨ ∃ s, e = .httpError s ∧ (500 ≤ s ∨ s = 408 ∨ s = 429))) := by
  refine ⟨?_, ?_, ?_, ?_, ?_⟩
  · intro env n lastGood k v hk hfail hok
    obtain ⟨le', hskip⟩ := callLoop_skip_prefix env (orderedIndexesForAttempt n lastGood)
      lastGood k (Nat.le_of_lt hk) hfail none
    have hdrop : (orderedIndexesForAttempt n lastGood).drop k
        = (orderedIndexesForAttempt n lastGood).get ⟨k, hk⟩
          :: (orderedIndexesForAttempt n lastGood).drop (k + 1) := by
      rw [List.drop_eq_getElem_cons hk]
      simp
    simp only [rpcCall, if_pos]
    rw [hskip, hdrop]
    rw [List.get_eq_getElem] at hok
    simp [callLoop, hok]
  · intro env n lastGood k e hk hfail herr hnr
    obtain ⟨le', hskip⟩ := callLoop_skip_prefix env (orderedIndexesForAttempt n lastGood)
      lastGood k (Nat.le_of_lt hk) hfail none
    have hdrop : (orderedIndexesForAttempt n lastGood).drop k
        = (orderedIndexesForAttempt n lastGood).get ⟨k, hk⟩
          :: (orderedIndexesForAttempt n lastGood).drop (k + 1) := by
      rw [List.drop_eq_getElem_cons hk]
      simp
    simp only [rpcCall, if_pos]
    rw [hskip, hdrop]
    rw [List.get_eq_getElem] at herr
    simp [callLoop, herr, hnr]
  · intro env n lastGood
    cases h : env lastGood with
    | ok v => simp [rpcCall, callLoop, h]
    | error e => simp [rpcCall, callLoop, h]
  · intro env n lastGood hne eLast hfail heLast
    simpa [rpcCall] using
      callLoop_all_fail env (orderedIndexesForAttempt n lastGood) lastGood hne hfail
        eLast heLast none
  · intro e
    cases e with
    | timeout => simp [shouldFailover]
    | networkError => simp [shouldFailover]
    | httpError s => simp [shouldFailover]
    | rpcError c msg => simp [shouldFailover]

/-- Witness for C8: with last-good 0, `call` skips the timeout and the 503 and
returns endpoint 2's result, making 2 the last-good index; with failover
disabled only endpoint 0 is tried and its timeout is raised. -/
theorem rpc_failover_correctness_witness :
    rpcCall rpcEnvW 3 0 true = (.ok "r", 2)
    ∧ rpcCall rpcEnvW 3 0 false = (.error (some .timeout), 0) := by
  constructor
  · have hf : ∀ j, (hj : j < 2) →
        retryableAt rpcEnvW
          ((orderedIndexesForAttempt 3 0).get ⟨j, Nat.lt_trans hj (by decide)⟩) := by
      intro j hj
      interval_cases j
      · exact ⟨.timeout, rfl, rfl⟩
      · exact ⟨.httpError 503, rfl, rfl⟩
    have hok : rpcEnvW ((orderedIndexesForAttempt 3 0).get ⟨2, by decide⟩) = .ok "r" := by
      decide
    have h := rpc_failover_correctness.1 rpcEnvW 3 0 2 "r" (by decide) hf hok
    have hv : (orderedIndexesForAttempt 3 0).get ⟨2, by decide⟩ = 2 := by decide
    rw [hv] at h
    exact h
  · have h := rpc_failover_correctness.2.2.1 rpcEnvW 3 0
    have he : rpcEnvW 0 = .error .timeout := by decide
    rw [he] at h
    exact h

/-- C6: key derivation is deterministic (a pure function here) and follows
exactly `master = BLAKE2b-512(DST_MASTER || seed)`,
`ikm = BLAKE2b-512(DST_ACCOUNT || master || u32_le(i))`, private key bytes
`ikm[0..32]` (hex-encoded), for every account index `i < 2^32`; seeds whose
length is not 64 bytes are rejected. The right-hand side
`derivedPrivkeyBytesSpec` is written from the specification's words. -/
theorem derivation_v1_spec (seed : Bytes) (i : Nat) (hi : i < 4294967296) :
    (seed.length = 64 →
      deriveAccountPrivkeyHexV1 seed (i : Int)
        = .ok (bytesToHex (derivedPrivkeyBytesSpec seed i)))
    ∧ (seed.length ≠ 64 →
      deriveAccountPrivkeyHexV1 seed (i : Int) = .error "seed must be 64 bytes") := by
  constructor
  · intro hlen
    have hu : derivationU32le (i : Int) = .ok (natToLeBytes i 4) := by
      have h1 : ¬ ((i : Int) < 0) := by omega
      have h2 : ¬ ((i : Int) > 0xffffffff) := by
        simp only [gt_iff_lt, not_lt]
        omega
      simp [derivationU32le, h1, h2]
    have hm : deriveMasterKeyMaterialV1 seed = .ok (h512 (dstMaster ++ seed)) := by
      simp [deriveMasterKeyMaterialV1, hlen]
    simp [deriveAccountPrivkeyHexV1, hm, hu, derivedPrivkeyBytesSpec, blake2b512, h512,
      exceptBindOk, exceptBindErr, exceptMapOk, exceptMapErr]
  · intro hlen
    have hm : deriveMasterKeyMaterialV1 seed = .error "seed must be 64 bytes" := by
      simp [deriveMasterKeyMaterialV1, hlen]
    simp [deriveAccountPrivkeyHexV1, hm, exceptBindOk, exceptBindErr, exceptMapOk,
      exceptMapErr]

/-- Witness for C6: the all-zero 64-byte seed at account index 0 derives the
spec formula's value, and a 63-byte seed is rejected. -/
theorem derivation_v1_spec_witness :
    deriveAccountPrivkeyHexV1 (List.replicate 64 0) ((0 : Nat) : Int)
      = .ok (bytesToHex (derivedPrivkeyBytesSpec (List.replicate 64 0) 0))
    ∧ deriveAccountPrivkeyHexV1 (List.replicate 63 0) ((0 : Nat) : Int)
      = .error "seed must be 64 bytes" := by
  refine ⟨(derivation_v1_spec (List.replicate 64 0) 0 (by norm_num)).1 (by simp),
          (derivation_v1_spec (List.replicate 63 0) 0 (by norm_num)).2 (by simp)⟩

/-- C2: the signing payload is exactly the ASCII bytes of "CATALYST_SIG_V1"
followed by `u64_le(chain_id)`, the 32 genesis-hash bytes,
`serialize_core(core)` and `u64_le(timestamp)`; and the wire image of any
transaction is "CTX1" || serialize_core || bytes_vec(signature) ||
u64_le(timestamp) only — `encodeWireTxV1` takes no chain parameter, so the
wire bytes contain neither `chain_id` nor `genesis_hash`. -/
theorem signing_payload_and_wire_shape :
    (∀ (core : TransactionCore) (ts chainId : Int) (genesisHex gs : String)
      (g cb cid8 ts8 : Bytes),
      normalizeHex32 genesisHex = .ok gs → hexToBytes gs = .ok g →
      serializeCoreV1 core = .ok cb → u64le chainId = .ok cid8 → u64le ts = .ok ts8 →
      signingPayloadV1 core ts chainId genesisHex
        = .ok (txSigDomainV1 ++ cid8 ++ g ++ cb ++ ts8))
    ∧ (∀ (tx : Transaction) (cb ts8 : Bytes),
      serializeCoreV1 tx.core = .ok cb → u64le tx.timestamp = .ok ts8 →
      tx.signature.length = 64 →
      encodeWireTxV1 tx
        = .ok (txWireMagicV1 ++ (cb ++ (natToLeBytes 64 4 ++ tx.signature) ++ ts8)))
    ∧ txSigDomainV1 = [67, 65, 84, 65, 76, 89, 83, 84, 95, 83, 73, 71, 95, 86, 49]
    ∧ txWireMagicV1 = [67, 84, 88, 49] := by
  refine ⟨?_, ?_, by decide, by decide⟩
  · intro core ts chainId genesisHex gs g cb cid8 ts8 hgs hg hcb hcid hts
    simp [signingPayloadV1, hgs, hg, hcb, hcid, hts, exceptBindOk, exceptBindErr,
      exceptMapOk, exceptMapErr]
  · intro tx cb ts8 hcb hts hsig
    have hbv : bytesVec tx.signature = .ok (natToLeBytes 64 4 ++ tx.signature) := by
      have h64 : u32le ((tx.signature.length : Nat) : Int) = .ok (natToLeBytes 64 4) := by
        rw [hsig]
        simp [u32le]
      simp [bytesVec, h64, exceptBindOk, exceptMapOk]
    have hser : serializeTxV1 tx = .ok (cb ++ (natToLeBytes 64 4 ++ tx.signature) ++ ts8) := by
      simp [serializeTxV1, hsig, hcb, hbv, hts, exceptBindOk, exceptMapOk]
    simp [encodeWireTxV1, hser, exceptBindOk, exceptMapOk]

/-- Witness for C2: the fixture core, chain id 31337, the all-zero genesis
hash and the fixture timestamp instantiate both equations. -/
theorem signing_payload_and_wire_shape_witness :
    signingPayloadV1 fixtureCore 1700000000000 31337 (bytesToHex (List.replicate 32 0))
      = .ok (txSigDomainV1 ++ [105, 122, 0, 0, 0, 0, 0, 0] ++ List.replicate 32 0
          ++ fixtureCoreBytes ++ [0, 104, 229, 207, 139, 1, 0, 0])
    ∧ encodeWireTxV1 fixtureTx
      = .ok (txWireMagicV1 ++ (fixtureCoreBytes
          ++ (natToLeBytes 64 4 ++ fixtureTx.signature) ++ [0, 104, 229, 207, 139, 1, 0, 0])) := by
  refine ⟨signing_payload_and_wire_shape.1 fixtureCore 1700000000000 31337
      (bytesToHex (List.replicate 32 0)) (bytesToHex (List.replicate 32 0))
      (List.replicate 32 0) fixtureCoreBytes [105, 122, 0, 0, 0, 0, 0, 0]
      [0, 104, 229, 207, 139, 1, 0, 0] (by decide) (by decide) (by decide) (by decide)
      (by decide),
    signing_payload_and_wire_shape.2.1 fixtureTx fixtureCoreBytes
      [0, 104, 229, 207, 139, 1, 0, 0] (by decide) (by decide) (by decide)⟩

/-- Reparsing the two hex characters of a byte gives the byte back. -/
theorem jsParseIntHex_byteToHexChars :
    ∀ b < 256, jsParseIntHex (byteToHexChars b) = some (b : Int) := by
  decide

/-- Pairing up a flat hex encoding recovers the per-byte character pairs. -/
theorem chunkPairs_flatMap (bs : Bytes) :
    chunkPairs (bs.flatMap byteToHexChars) = bs.map byteToHexChars := by
  induction bs with
  | nil => rfl
  | cons b t ih =>
    have hstep : (b :: t).flatMap byteToHexChars
        = hexDigitChar (b / 16 % 16) :: hexDigitChar (b % 16) :: t.flatMap byteToHexChars := rfl
    rw [hstep, chunkPairs, ih]
    rfl

/-- A flat hex encoding has two characters per byte. -/
theorem length_flatMap_hex (bs : Bytes) :
    (bs.flatMap byteToHexChars).length = 2 * bs.length := by
  induction bs with
  | nil => rfl
  | cons b t ih => simp [byteToHexChars, ih]; omega

/-- Round-trip of the sdk codec: `hexToBytes (bytesToHex bs) = bs` for byte
lists. -/
theorem hexToBytes_bytesToHex (bs : Bytes) (h : ∀ b ∈ bs, b < 256) :
    hexToBytes (bytesToHex bs) = .ok bs := by
  have hdata : (bytesToHex bs).data.drop 2 = bs.flatMap byteToHexChars := rfl
  have hvals : (chunkPairs (bs.flatMap byteToHexChars)).map jsParseIntHex
      = bs.map (fun (b : Nat) => some ((b : Nat) : Int)) := by
    rw [chunkPairs_flatMap, List.map_map]
    exact List.map_congr_left (fun b hb => jsParseIntHex_byteToHexChars b (h b hb))
  rw [hexToBytes, hdata]
  rw [if_neg (by rw [length_flatMap_hex]; omega)]
  rw [hvals]
  rw [if_neg (by simp)]
  congr 1
  rw [List.map_map]
  have : bs.map (jsToUint8 ∘ fun (b : Nat) => some ((b : Nat) : Int)) = bs.map id := by
    apply List.map_congr_left
    intro b hb
    have hb' := h b hb
    simp only [Function.comp_apply, jsToUint8, id]
    have hmod : ((b : Int).emod 256) = (b : Int) % 256 := rfl
    rw [hmod]
    omega
  rw [this, List.map_id]

/-- Round-trip of the vault module's local codec. -/
theorem vaultHexToBytes_bytesToHex (bs : Bytes) (h : ∀ b ∈ bs, b < 256) :
    vaultHexToBytes (bytesToHex bs) = .ok bs := by
  have hdata : (bytesToHex bs).data.drop 2 = bs.flatMap byteToHexChars := rfl
  rw [vaultHexToBytes]
  rw [if_neg (by intro hcontra; exact hcontra rfl)]
  rw [hdata]
  rw [if_neg (by rw [length_flatMap_hex]; omega)]
  rw [chunkPairs_flatMap]
  congr 1
  rw [List.map_map]
  have : bs.map ((fun p => jsToUint8 (jsParseIntHex p)) ∘ byteToHexChars) = bs.map id := by
    apply List.map_congr_left
    intro b hb
    have hb' := h b hb
    simp only [Function.comp_apply, id]
    rw [jsParseIntHex_byteToHexChars b hb']
    simp only [jsToUint8]
    have hmod : ((b : Int).emod 256) = (b : Int) % 256 := rfl
    rw [hmod]
    omega
  rw [this, List.map_id]

/-- Lowercasing fixes a lowercase hex digit character. -/
theorem hexDigitChar_lower : ∀ n < 16, Char.toLower (hexDigitChar n) = hexDigitChar n := by
  decide

/-- A hex digit character is in the `[0-9a-f]` class. -/
theorem hexDigitChar_isLowerHex : ∀ n < 16, isLowerHexChar (hexDigitChar n) = true := by
  decide

/-- Every character of a flat hex encoding is a hex digit character. -/
theorem mem_flatMap_hex {c : Char} {bs : Bytes} (hc : c ∈ bs.flatMap byteToHexChars) :
    ∃ n, n < 16 ∧ c = hexDigitChar n := by
  rw [List.mem_flatMap] at hc
  obtain ⟨b, hb, hcb⟩ := hc
  simp only [byteToHexChars, List.mem_cons, List.mem_singleton, List.not_mem_nil,
    or_false] at hcb
  rcases hcb with h | h
  · exact ⟨b / 16 % 16, Nat.mod_lt _ (by norm_num), h⟩
  · exact ⟨b % 16, Nat.mod_lt _ (by norm_num), h⟩

/-- Lowercasing fixes a flat hex encoding. -/
theorem toLower_flatMap (bs : Bytes) :
    (bs.flatMap byteToHexChars).map Char.toLower = bs.flatMap byteToHexChars := by
  have hmap : (bs.flatMap byteToHexChars).map Char.toLower
      = (bs.flatMap byteToHexChars).map id := by
    apply List.map_congr_left
    intro c hc
    obtain ⟨n, hn, rfl⟩ := mem_flatMap_hex hc
    simpa using hexDigitChar_lower n hn
  rw [hmap, List.map_id]

/-- The canonical hex form of a 32-byte value is a fixed point of
`normalizeHex32`. -/
theorem normalizeHex32_bytesToHex (bs : Bytes) (hlen : bs.length = 32) :
    normalizeHex32 (bytesToHex bs) = .ok (bytesToHex bs) := by
  have hdata : (bytesToHex bs).data.drop 2 = bs.flatMap byteToHexChars := rfl
  have hlen64 : (bs.flatMap byteToHexChars).length = 64 := by
    rw [length_flatMap_hex, hlen]
  rw [normalizeHex32]
  rw [if_neg (by intro hcontra; exact hcontra rfl)]
  rw [hdata, toLower_flatMap]
  rw [if_neg ?hvalid]
  case hvalid =>
    intro hcontra
    rcases hcontra with hemp | hany
    · rw [List.isEmpty_iff] at hemp
      rw [hemp] at hlen64
      simp at hlen64
    · rw [List.any_eq_true] at hany
      obtain ⟨c, hc, hp⟩ := hany
      obtain ⟨n, hn, rfl⟩ := mem_flatMap_hex hc
      rw [hexDigitChar_isLowerHex n hn] at hp
      simp at hp
  rw [if_neg (by rw [hlen64]; omega)]
  rfl

/-- Xor of two bytes is a byte. -/
theorem xor_lt_256 {a b : Nat} (ha : a < 256) (hb : b < 256) : a ^^^ b < 256 := by
  have ha8 : a < 2 ^ 8 := by norm_num; omega
  have hb8 : b < 2 ^ 8 := by norm_num; omega
  have h := Nat.bitwise_lt_two_pow (f := bne) ha8 hb8
  norm_num at h
  exact h

/-- Stream-xor of byte lists yields bytes. -/
theorem zipWithXor_lt (a b : Bytes) (ha : ∀ x ∈ a, x < 256) (hb : ∀ x ∈ b, x < 256) :
    ∀ x ∈ zipWithXor a b, x < 256 := by
  induction a generalizing b with
  | nil => simp [zipWithXor]
  | cons x xs ih =>
    cases b with
    | nil => simp [zipWithXor]
    | cons y ys =>
      intro z hz
      simp only [zipWithXor, List.zipWith_cons_cons, List.mem_cons] at hz
      rcases hz with rfl | hz
      · exact xor_lt_256 (ha x (by simp)) (hb y (by simp))
      · exact ih ys (fun u hu => ha u (by simp [hu])) (fun u hu => hb u (by simp [hu])) z hz

/-- Applying the same keystream twice recovers the prefix covered by it. -/
theorem zipWithXor_cancel (a b : Bytes) :
    zipWithXor (zipWithXor a b) b = a.take b.length := by
  induction a generalizing b with
  | nil => simp [zipWithXor]
  | cons x xs ih =>
    cases b with
    | nil => simp [zipWithXor]
    | cons y ys =>
      simp only [zipWithXor, List.zipWith_cons_cons, List.length_cons, List.take_succ_cons]
      congr 1
      · exact Nat.xor_cancel_right y x
      · exact ih ys

/-- The keystream has the requested length. -/
theorem xchachaKeystream_length (ksF : Bytes → Bytes → Nat → Nat) (key nonce : Bytes)
    (len : Nat) : (xchachaKeystream ksF key nonce len).length = len := by
  simp [xchachaKeystream]

/-- The keystream consists of bytes. -/
theorem xchachaKeystream_lt (ksF : Bytes → Bytes → Nat → Nat) (key nonce : Bytes)
    (len : Nat) : ∀ x ∈ xchachaKeystream ksF key nonce len, x < 256 := by
  intro x hx
  simp only [xchachaKeystream, List.mem_map] at hx
  obtain ⟨i, hi, rfl⟩ := hx
  exact Nat.mod_lt _ (by norm_num)

/-- The tag is 16 bytes long. -/
theorem polyTag_length (tagF : Bytes → Bytes → Bytes → Nat → Nat) (key nonce ct : Bytes) :
    (polyTag tagF key nonce ct).length = 16 := by
  simp [polyTag]

/-- C5: vault round-trip. For every plaintext byte string, every non-empty
password, and every salt and nonce the RNG produced during `create`,
`openVaultV1` with the same password applied to the record produced by
`createVaultV1` returns exactly the plaintext. `scryptF` is the external
scrypt KDF (any deterministic function), `ksF`/`tagF` the external
XChaCha20-Poly1305 keystream and tag primitives. -/
theorem vault_roundtrip (scryptF : Bytes → Bytes → Int → Int → Int → Int → Bytes)
    (ksF : Bytes → Bytes → Nat → Nat) (tagF : Bytes → Bytes → Bytes → Nat → Nat)
    (password : String) (plaintext salt nonce : Bytes)
    (hpw : password ≠ "") (hp : ∀ b ∈ plaintext, b < 256) (hs : ∀ b ∈ salt, b < 256)
    (hn : ∀ b ∈ nonce, b < 256) :
    openVaultV1 scryptF ksF tagF password
      (createVaultV1 scryptF ksF tagF password plaintext salt nonce) = .ok plaintext := by
  have hkey : deriveKeyScrypt scryptF password salt 32768 8 1 32
      = deriveKeyScrypt scryptF password salt 32768 8 1 32 := rfl
  set key := deriveKeyScrypt scryptF password salt 32768 8 1 32 with hkeydef
  set ks := xchachaKeystream ksF key nonce plaintext.length with hksdef
  set ct := zipWithXor plaintext ks with hctdef
  set tag := polyTag tagF key nonce ct with htagdef
  have hctlen : ct.length = plaintext.length := by
    rw [hctdef, zipWithXor, List.length_zipWith, hksdef, xchachaKeystream_length]
    omega
  have hct256 : ∀ b ∈ ct, b < 256 := by
    rw [hctdef]
    exact zipWithXor_lt _ _ hp (by rw [hksdef]; exact xchachaKeystream_lt ksF key nonce _)
  have htag256 : ∀ b ∈ tag, b < 256 := by
    intro b hb
    rw [htagdef] at hb
    simp only [polyTag, List.mem_map] at hb
    obtain ⟨i, hi, rfl⟩ := hb
    exact Nat.mod_lt _ (by norm_num)
  have hcipher256 : ∀ b ∈ ct ++ tag, b < 256 := by
    intro b hb
    rcases List.mem_append.mp hb with h | h
    · exact hct256 b h
    · exact htag256 b h
  have hrecord : createVaultV1 scryptF ksF tagF password plaintext salt nonce
      = { version := 1
          kdf := { name := "scrypt", bigN := 32768, r := 8, p := 1, saltHex := bytesToHex salt }
          cipher := { name := "xchacha20-poly1305", nonceHex := bytesToHex nonce }
          ciphertextHex := bytesToHex (ct ++ tag) } := rfl
  rw [hrecord, openVaultV1]
  simp only [reduceCtorEq, if_false, if_neg]
  rw [if_neg (by decide), if_neg (by decide), if_neg (by decide)]
  rw [vaultHexToBytes_bytesToHex salt hs, exceptBindOk]
  rw [vaultHexToBytes_bytesToHex nonce hn, exceptBindOk]
  rw [vaultHexToBytes_bytesToHex (ct ++ tag) hcipher256, exceptBindOk]
  rw [xchachaDecrypt]
  have hlen : (ct ++ tag).length = ct.length + 16 := by
    rw [List.length_append, htagdef, polyTag_length]
  rw [if_neg (by rw [hlen]; omega)]
  have htake : (ct ++ tag).take ((ct ++ tag).length - 16) = ct := by
    rw [hlen]
    simp only [Nat.add_sub_cancel]
    exact List.take_left ct tag
  have hdrop : (ct ++ tag).drop ((ct ++ tag).length - 16) = tag := by
    rw [hlen]
    simp only [Nat.add_sub_cancel]
    exact List.drop_left ct tag
  rw [htake, hdrop]
  rw [if_pos rfl]
  rw [hctlen]
  rw [hctdef]
  have hkslen : ks.length = plaintext.length := by
    rw [hksdef]; exact xchachaKeystream_length ksF key nonce _
  rw [zipWithXor_cancel, hkslen, List.take_length]

/-- Encoding success of `u64le` inside its range. -/
theorem u64le_ok (v : Int) (h1 : 0 ≤ v) (h2 : v ≤ 18446744073709551615) :
    u64le v = .ok (natToLeBytes v.toNat 8) := by
  rw [u64le, if_neg (by omega)]

/-- Encoding success of `u32le` inside its range. -/
theorem u32le_ok (v : Int) (h1 : 0 ≤ v) (h2 : v ≤ 4294967295) :
    u32le v = .ok (natToLeBytes v.toNat 4) := by
  rw [u32le, if_neg (by omega)]

/-- Encoding success of `i64le` inside its range: the two's-complement image. -/
theorem i64le_ok (v : Int) (h1 : -(2 ^ 63) ≤ v) (h2 : v ≤ 2 ^ 63 - 1) :
    i64le v = .ok (natToLeBytes (if v < 0 then (2 ^ 64 + v).toNat else v.toNat) 8) := by
  rw [i64le, if_neg (by omega)]
  rcases lt_or_ge v 0 with hv | hv
  · rw [if_pos hv, if_pos hv, u64le_ok _ (by omega) (by omega)]
  · rw [if_neg (by omega), if_neg (by omega), u64le_ok _ (by omega) (by omega)]

/-- The little-endian encoders produce the requested number of bytes. -/
theorem natToLeBytes_length (n len : Nat) : (natToLeBytes n len).length = len := by
  simp [natToLeBytes]

/-- The encoded scalar is 32 bytes long. -/
theorem scalarToBytesLE_length (s : Int) : (scalarToBytesLE s).length = 32 := by
  simp [scalarToBytesLE, bigIntTo32Le]

/-- Serialization success of one non-confidential entry whose address is the
canonical hex of 32 bytes and whose amount is inside the i64 range. -/
theorem serializeEntry_okHex (pk : Bytes) (amt : Int) (hlen : pk.length = 32)
    (h256 : ∀ b ∈ pk, b < 256) (h1 : -(2 ^ 63) ≤ amt) (h2 : amt ≤ 2 ^ 63 - 1) :
    serializeEntry ⟨bytesToHex pk, amt⟩
      = .ok (pk ++ ([0] ++ natToLeBytes (if amt < 0 then (2 ^ 64 + amt).toNat else amt.toNat) 8)) := by
  rw [serializeEntry]
  simp only [normalizeHex32_bytesToHex pk hlen, exceptBindOk,
    hexToBytes_bytesToHex pk h256]
  rw [if_neg (by rw [hlen]; omega)]
  rw [serializeEntryAmountNonConfidential]
  have hu8 : u8 0 = .ok [0] := rfl
  simp only [hu8, exceptBindOk, i64le_ok amt h1 h2]
  rfl

/-- C4 (amended): `buildAndSignTransferTxV1` performs no amount-positivity
check — for every amount inside the i64 range (of either sign, zero included)
and well-formed remaining inputs it succeeds and produces a core with exactly
the two entries `[{from, −amount}, {to, +amount}]`, the allocated nonce and
empty data; self-transfer is accepted (nothing requires `to ≠ from`). The
`amount > 0` guard of the spec lives in the app callers, not here. -/
theorem buildTransfer_core_shape (cmb : Nat → Bytes) (nonceBytes : Bytes)
    (pb tb gb : Bytes) (amount noncePlusOne fees lockTimeSeconds timestampMs chainId : Int)
    (hcmb : ∀ x, (cmb x).length = 32 ∧ ∀ b ∈ cmb x, b < 256)
    (hpb : pb.length = 32) (hpb256 : ∀ b ∈ pb, b < 256)
    (htb : tb.length = 32) (htb256 : ∀ b ∈ tb, b < 256)
    (hgb : gb.length = 32) (hgb256 : ∀ b ∈ gb, b < 256)
    (hamt : -(2 ^ 63) < amount ∧ amount < 2 ^ 63)
    (hnonce : 0 ≤ noncePlusOne ∧ noncePlusOne ≤ 18446744073709551615)
    (hfees : 0 ≤ fees ∧ fees ≤ 18446744073709551615)
    (hlock : 0 ≤ lockTimeSeconds ∧ lockTimeSeconds ≤ 4294967295)
    (hts : 0 ≤ timestampMs ∧ timestampMs ≤ 18446744073709551615)
    (hcid : 0 ≤ chainId ∧ chainId ≤ 18446744073709551615)
    (hx : leBytesToNat pb % ristrettoOrderL ≠ 0)
    (hk : leBytesToNat nonceBytes % ristrettoOrderL ≠ 0) :
    ∃ res, buildAndSignTransferTxV1 cmb nonceBytes (bytesToHex pb) (bytesToHex tb)
        amount noncePlusOne fees lockTimeSeconds timestampMs chainId (bytesToHex gb)
      = .ok res
    ∧ res.fromPubkeyHex = bytesToHex (cmb (leBytesToNat pb % ristrettoOrderL))
    ∧ res.tx.core.entries
        = [⟨bytesToHex (cmb (leBytesToNat pb % ristrettoOrderL)), -amount⟩,
           ⟨bytesToHex tb, amount⟩]
    ∧ res.tx.core.nonce = noncePlusOne
    ∧ res.tx.core.data = []
    ∧ res.tx.core.txType = .NonConfidentialTransfer := by
  have hscalar : privkeyHexToScalar (bytesToHex pb) = .ok (leBytesToNat pb % ristrettoOrderL) := by
    rw [privkeyHexToScalar]
    simp only [normalizeHex32_bytesToHex pb hpb, exceptBindOk,
      hexToBytes_bytesToHex pb hpb256]
    rfl
  have hLpos : 0 < ristrettoOrderL := by norm_num [ristrettoOrderL]
  have hmulx : ristrettoBaseMulBytes cmb (leBytesToNat pb % ristrettoOrderL)
      = .ok (cmb (leBytesToNat pb % ristrettoOrderL)) := by
    rw [ristrettoBaseMulBytes, if_neg]
    push_neg
    exact ⟨hx, by have := Nat.mod_lt (leBytesToNat pb) hLpos; omega⟩
  have hmulk : ristrettoBaseMulBytes cmb (leBytesToNat nonceBytes % ristrettoOrderL)
      = .ok (cmb (leBytesToNat nonceBytes % ristrettoOrderL)) := by
    rw [ristrettoBaseMulBytes, if_neg]
    push_neg
    exact ⟨hk, by have := Nat.mod_lt (leBytesToNat nonceBytes) hLpos; omega⟩
  have hfrom : pubkeyFromPrivkeyHex cmb (bytesToHex pb)
      = .ok (bytesToHex (cmb (leBytesToNat pb % ristrettoOrderL))) := by
    rw [pubkeyFromPrivkeyHex]
    simp only [hscalar, exceptBindOk, hmulx]
    rfl
  have hfromBytes := hcmb (leBytesToNat pb % ristrettoOrderL)
  have he1 := serializeEntry_okHex (cmb (leBytesToNat pb % ristrettoOrderL)) (-amount)
    hfromBytes.1 hfromBytes.2 (by omega) (by omega)
  have he2 := serializeEntry_okHex tb amount htb htb256 (by omega) (by omega)
  have hmap : List.mapM serializeEntry
      [(⟨bytesToHex (cmb (leBytesToNat pb % ristrettoOrderL)), -amount⟩ : NonConfidentialEntry),
       ⟨bytesToHex tb, amount⟩]
      = .ok [cmb (leBytesToNat pb % ristrettoOrderL)
               ++ ([0] ++ natToLeBytes (if -amount < 0 then (2 ^ 64 + -amount).toNat
                     else (-amount).toNat) 8),
             tb ++ ([0] ++ natToLeBytes (if amount < 0 then (2 ^ 64 + amount).toNat
                     else amount.toNat) 8)] := by
    rw [List.mapM_cons, he1]
    rw [List.mapM_cons, he2]
    rfl
  have hcore : serializeCoreV1
      { txType := .NonConfidentialTransfer
        nonce := noncePlusOne
        lockTime := lockTimeSeconds
        fees := fees
        data := []
        entries := [⟨bytesToHex (cmb (leBytesToNat pb % ristrettoOrderL)), -amount⟩,
                    ⟨bytesToHex tb, amount⟩] }
      = .ok ([0]
          ++ (natToLeBytes 2 4
              ++ ([cmb (leBytesToNat pb % ristrettoOrderL)
                    ++ ([0] ++ natToLeBytes (if -amount < 0 then (2 ^ 64 + -amount).toNat
                          else (-amount).toNat) 8),
                  tb ++ ([0] ++ natToLeBytes (if amount < 0 then (2 ^ 64 + amount).toNat
                          else amount.toNat) 8)] : List Bytes).flatten)
          ++ natToLeBytes noncePlusOne.toNat 8
          ++ natToLeBytes lockTimeSeconds.toNat 4
          ++ natToLeBytes fees.toNat 8
          ++ (natToLeBytes 0 4 ++ [])) := by
    rw [serializeCoreV1]
    rw [if_neg (by simp)]
    rw [hmap, exceptBindOk]
    have hu8 : u8 (txTypeTag .NonConfidentialTransfer) = .ok [0] := rfl
    have hvec : vec [cmb (leBytesToNat pb % ristrettoOrderL)
          ++ ([0] ++ natToLeBytes (if -amount < 0 then (2 ^ 64 + -amount).toNat
                else (-amount).toNat) 8),
        tb ++ ([0] ++ natToLeBytes (if amount < 0 then (2 ^ 64 + amount).toNat
                else amount.toNat) 8)]
        = .ok (natToLeBytes 2 4
            ++ ([cmb (leBytesToNat pb % ristrettoOrderL)
                  ++ ([0] ++ natToLeBytes (if -amount < 0 then (2 ^ 64 + -amount).toNat
                        else (-amount).toNat) 8),
                tb ++ ([0] ++ natToLeBytes (if amount < 0 then (2 ^ 64 + amount).toNat
                        else amount.toNat) 8)] : List Bytes).flatten) := rfl
    simp only [hu8, hvec, exceptBindOk,
      u64le_ok noncePlusOne hnonce.1 hnonce.2,
      u32le_ok lockTimeSeconds hlock.1 hlock.2,
      u64le_ok fees hfees.1 hfees.2]
    rfl
  obtain ⟨P, hP⟩ : ∃ P, signingPayloadV1
      { txType := .NonConfidentialTransfer
        nonce := noncePlusOne
        lockTime := lockTimeSeconds
        fees := fees
        data := []
        entries := [⟨bytesToHex (cmb (leBytesToNat pb % ristrettoOrderL)), -amount⟩,
                    ⟨bytesToHex tb, amount⟩] }
      timestampMs chainId (bytesToHex gb) = .ok P := by
    rw [signingPayloadV1]
    simp only [normalizeHex32_bytesToHex gb hgb, exceptBindOk,
      hexToBytes_bytesToHex gb hgb256, hcore,
      u64le_ok chainId hcid.1 hcid.2, u64le_ok timestampMs hts.1 hts.2]
    exact ⟨_, rfl⟩
  obtain ⟨S, hS, hSlen⟩ : ∃ S, signSchnorrRistretto cmb nonceBytes (bytesToHex pb) P = .ok S
      ∧ S.length = 64 := by
    rw [signSchnorrRistretto]
    simp only [hscalar, exceptBindOk, hmulx, hmulk]
    refine ⟨_, rfl, ?_⟩
    rw [List.length_append, (hcmb _).1, scalarToBytesLE_length]
  obtain ⟨TB, hTB⟩ : ∃ TB, serializeTxV1
      { core := { txType := .NonConfidentialTransfer
                  nonce := noncePlusOne
                  lockTime := lockTimeSeconds
                  fees := fees
                  data := []
                  entries := [⟨bytesToHex (cmb (leBytesToNat pb % ristrettoOrderL)), -amount⟩,
                              ⟨bytesToHex tb, amount⟩] }
        signature := S, timestamp := timestampMs } = .ok TB := by
    rw [serializeTxV1]
    rw [if_neg (by rw [hSlen]; omega)]
    have hbv : bytesVec S = .ok (natToLeBytes 64 4 ++ S) := by
      rw [bytesVec]
      have h64 : u32le ((S.length : Nat) : Int) = .ok (natToLeBytes 64 4) := by
        rw [hSlen]
        rfl
      simp only [h64, exceptBindOk]
      rfl
    simp only [hcore, hbv, exceptBindOk, u64le_ok timestampMs hts.1 hts.2]
    exact ⟨_, rfl⟩
  have hwire : encodeWireTxV1
      { core := { txType := .NonConfidentialTransfer
                  nonce := noncePlusOne
                  lockTime := lockTimeSeconds
                  fees := fees
                  data := []
                  entries := [⟨bytesToHex (cmb (leBytesToNat pb % ristrettoOrderL)), -amount⟩,
                              ⟨bytesToHex tb, amount⟩] }
        signature := S, timestamp := timestampMs } = .ok (txWireMagicV1 ++ TB) := by
    rw [encodeWireTxV1]
    simp only [hTB, exceptBindOk]
    rfl
  have hid : txIdV1
      { core := { txType := .NonConfidentialTransfer
                  nonce := noncePlusOne
                  lockTime := lockTimeSeconds
                  fees := fees
                  data := []
                  entries := [⟨bytesToHex (cmb (leBytesToNat pb % ristrettoOrderL)), -amount⟩,
                              ⟨bytesToHex tb, amount⟩] }
        signature := S, timestamp := timestampMs }
      = .ok (bytesToHex ((blake2b512 (txWireMagicV1 ++ TB)).take 32)) := by
    rw [txIdV1]
    simp only [hwire, exceptBindOk]
    rfl
  rw [buildAndSignTransferTxV1]
  simp only [hfrom, exceptBindOk, normalizeHex32_bytesToHex tb htb, hP, hS, hwire, hid]
  exact ⟨_, rfl, rfl, rfl, rfl, rfl, trivial⟩

/-- C4 counterexample to the claim as stated: with `amount = 0` (which is
≤ 0), `buildAndSignTransferTxV1` does not fail — it returns a result whose
core has the two entries `[{from, 0}, {to, 0}]`, nonce 1 and empty data. -/
theorem buildTransfer_accepts_zero_amount :
    (buildAndSignTransferTxV1 (fun x => List.replicate 32 7) (List.replicate 32 9)
        (bytesToHex (List.replicate 32 17)) (bytesToHex (List.replicate 32 34))
        0 1 3 0 1700000000000 31337 (bytesToHex (List.replicate 32 0))).toOption.map
      (fun r => (r.tx.core.entries, r.tx.core.nonce, r.tx.core.data))
    = some ([⟨bytesToHex (List.replicate 32 7), 0⟩, ⟨bytesToHex (List.replicate 32 34), 0⟩],
        1, ([] : Bytes)) := by
  decide

/-- Witness for C4 (amended): a concrete positive transfer of 5 produces the
two-entry core `[{from, −5}, {to, +5}]` with nonce 6 and empty data. -/
theorem buildTransfer_core_shape_witness :
    ∃ res, buildAndSignTransferTxV1 (fun x => List.replicate 32 7) (List.replicate 32 9)
        (bytesToHex (List.replicate 32 17)) (bytesToHex (List.replicate 32 34))
        5 6 3 0 1700000000000 31337 (bytesToHex (List.replicate 32 0)) = .ok res
    ∧ res.fromPubkeyHex
        = bytesToHex (List.replicate 32 7)
    ∧ res.tx.core.entries
        = [⟨bytesToHex (List.replicate 32 7), -5⟩, ⟨bytesToHex (List.replicate 32 34), 5⟩]
    ∧ res.tx.core.nonce = 6
    ∧ res.tx.core.data = []
    ∧ res.tx.core.txType = .NonConfidentialTransfer :=
  buildTransfer_core_shape (fun x => List.replicate 32 7) (List.replicate 32 9)
    (List.replicate 32 17) (List.replicate 32 34) (List.replicate 32 0)
    5 6 3 0 1700000000000 31337
    (fun x => ⟨by simp, fun b hb => by rw [List.mem_replicate] at hb; omega⟩)
    (by simp) (fun b hb => by rw [List.mem_replicate] at hb; omega)
    (by simp) (fun b hb => by rw [List.mem_replicate] at hb; omega)
    (by simp) (fun b hb => by rw [List.mem_replicate] at hb; omega)
    (by norm_num) (by norm_num) (by norm_num) (by norm_num) (by norm_num) (by norm_num)
    (by decide) (by decide)

/-- Witness for C5: a concrete vault round-trip with trivial stand-ins for the
external scrypt/keystream/tag primitives, password "pw", plaintext
`[104, 105, 33]`, a 16-byte salt and a 24-byte nonce. -/
theorem vault_roundtrip_witness :
    openVaultV1 (fun a b c d e f => List.replicate 32 0) (fun a b i => i)
      (fun a b c i => i) "pw"
      (createVaultV1 (fun a b c d e f => List.replicate 32 0) (fun a b i => i)
        (fun a b c i => i) "pw" [104, 105, 33] (List.replicate 16 1) (List.replicate 24 2))
      = .ok [104, 105, 33] :=
  vault_roundtrip (fun a b c d e f => List.replicate 32 0) (fun a b i => i)
    (fun a b c i => i) "pw" [104, 105, 33] (List.replicate 16 1) (List.replicate 24 2)
    (by decide) (by decide) (by decide) (by decide)

end Catalyst
